import Mathlib

/-!
Verification of the pritunl administrative CLI (pritunl/__main__.py) against
its specification.  The program is shallowly embedded: Python strings are
modelled as lists of Unicode code points (Nat), the JSON value space of the
json module as an inductive type with an executable encoder and parser, the
settings store, the mongo collection state and the side effects of each
command branch as explicit state passing.
-/

namespace Pritunl

/-- Code points of a Lean string literal, used to write concrete Python
strings in theorems. -/
def codes (s : String) : List Nat := s.data.map Char.toNat

/-- Python str.split on a single dot: every dot separates, empty parts are
kept, the empty string yields one empty part. -/
def splitDotAux : List Char → List Char → List String
  | [], acc => [String.mk acc.reverse]
  | c :: rest, acc =>
    if c = '.' then String.mk acc.reverse :: splitDotAux rest []
    else splitDotAux rest (c :: acc)

/-- Embedding of args.split with separator dot (Python str.split). -/
def pySplitDot (s : String) : List String := splitDotAux s.data []

/-- A Unicode scalar value: any code point a well-formed Python string built
from decoded UTF-8 input can hold (below 0x110000 and not a surrogate). -/
def validScalar (c : Nat) : Prop := c < 1114112 ∧ (c < 55296 ∨ 57343 < c)

instance (c : Nat) : Decidable (validScalar c) := by
  unfold validScalar
  infer_instance

/-! ## JSON values (the json module value space reachable from json.loads) -/

/-- JSON values as produced by json.loads: null, booleans, integers, floats
(kept as their source lexeme, no claim inspects float values), strings,
arrays, objects, and the nonstandard constants NaN and Infinity that the
Python scanner accepts.  Strings are lists of code points. -/
inductive JVal where
  | null : JVal
  | bool (b : Bool) : JVal
  | int (n : Int) : JVal
  | float (lexeme : List Nat) : JVal
  | str (s : List Nat) : JVal
  | arr (elems : List JVal) : JVal
  | obj (entries : List (List Nat × JVal)) : JVal
  | nan : JVal
  | inf (neg : Bool) : JVal

/-! ## Encoder: json.JSONEncoder().encode on a str argument (ensure_ascii) -/

/-- One lowercase hexadecimal digit code point. -/
def hexDig (d : Nat) : Nat := if d < 10 then 48 + d else 87 + d

/-- Four lowercase hexadecimal digits of a code unit below 0x10000. -/
def hex4 (n : Nat) : List Nat :=
  [hexDig (n / 4096), hexDig (n / 256 % 16), hexDig (n / 16 % 16), hexDig (n % 16)]

/-- The escape the ensure_ascii encoder emits for one code point: quote and
backslash get two-character escapes, the named control escapes are used for
8, 9, 10, 12 and 13, the remaining code points below 0x20 and everything
above 0x7e become backslash-u sequences, with a surrogate pair above
0xffff. -/
def escChar (c : Nat) : List Nat :=
  if c = 34 then [92, 34]
  else if c = 92 then [92, 92]
  else if c = 8 then [92, 98]
  else if c = 9 then [92, 116]
  else if c = 10 then [92, 110]
  else if c = 12 then [92, 102]
  else if c = 13 then [92, 114]
  else if c < 32 then 92 :: 117 :: hex4 c
  else if c ≤ 126 then [c]
  else if c ≤ 65535 then 92 :: 117 :: hex4 c
  else (92 :: 117 :: hex4 (55296 + (c - 65536) / 1024)) ++
    (92 :: 117 :: hex4 (56320 + (c - 65536) % 1024))

/-- Escape every character of a string body. -/
def escapeStr : List Nat → List Nat
  | [] => []
  | c :: rest => escChar c ++ escapeStr rest

/-- json.JSONEncoder().encode of a str value: a double-quoted escaped body. -/
def encodeJsonStr (s : List Nat) : List Nat := 34 :: (escapeStr s ++ [34])

/-! ## Parser: json.loads -/

/-- Skip the JSON whitespace characters space, tab, newline, return. -/
def skipWs : List Nat → List Nat
  | [] => []
  | c :: rest => if c = 32 ∨ c = 9 ∨ c = 10 ∨ c = 13 then skipWs rest else c :: rest

/-- Decimal digit test. -/
def isDigit (c : Nat) : Bool := decide (48 ≤ c ∧ c ≤ 57)

/-- Value of one hexadecimal digit character, either case. -/
def hexDigitVal (c : Nat) : Option Nat :=
  if 48 ≤ c ∧ c ≤ 57 then some (c - 48)
  else if 97 ≤ c ∧ c ≤ 102 then some (c - 87)
  else if 65 ≤ c ∧ c ≤ 70 then some (c - 55)
  else none

/-- Parse exactly four hexadecimal digits into a code unit. -/
def hex4parse : List Nat → Option (Nat × List Nat)
  | a :: b :: c :: d :: rest =>
    match hexDigitVal a, hexDigitVal b, hexDigitVal c, hexDigitVal d with
    | some x, some y, some z, some w => some (((x * 16 + y) * 16 + z) * 16 + w, rest)
    | _, _, _, _ => none
  | _ => none

/-- Parse the four hex digits after a backslash-u escape; a high surrogate
immediately followed by another backslash-u low surrogate is combined into
one code point, as the scanner in the json module does. -/
def parseU (l : List Nat) : Option (Nat × List Nat) :=
  match hex4parse l with
  | none => none
  | some (u, r2) =>
    if 55296 ≤ u ∧ u ≤ 56319 then
      match r2 with
      | 92 :: 117 :: r3 =>
        match hex4parse r3 with
        | none => none
        | some (u2, r4) =>
          if 56320 ≤ u2 ∧ u2 ≤ 57343 then
            some (65536 + (u - 55296) * 1024 + (u2 - 56320), r4)
          else some (u, r2)
      | _ => some (u, r2)
    else some (u, r2)

/-- Parse the character after a backslash inside a JSON string. -/
def parseEscape : List Nat → Option (Nat × List Nat)
  | [] => none
  | e :: rest =>
    if e = 34 then some (34, rest)
    else if e = 92 then some (92, rest)
    else if e = 47 then some (47, rest)
    else if e = 98 then some (8, rest)
    else if e = 102 then some (12, rest)
    else if e = 110 then some (10, rest)
    else if e = 114 then some (13, rest)
    else if e = 116 then some (9, rest)
    else if e = 117 then parseU rest
    else none

/-- Parse a JSON string body after the opening quote, up to and including
the closing quote.  Unescaped control characters below 0x20 are rejected
(strict mode).  Fuel bounds the recursion; every step consumes at least one
input character, so one more than the input length is always enough. -/
def parseStrBody : Nat → List Nat → Option (List Nat × List Nat)
  | 0, _ => none
  | _ + 1, [] => none
  | fuel + 1, c :: rest =>
    if c = 34 then some ([], rest)
    else if c = 92 then
      match parseEscape rest with
      | none => none
      | some (e, rest2) =>
        match parseStrBody fuel rest2 with
        | none => none
        | some (s, r) => some (e :: s, r)
    else if c < 32 then none
    else
      match parseStrBody fuel rest with
      | none => none
      | some (s, r) => some (c :: s, r)

/-- Fold decimal digit characters into a natural number. -/
def digitsToNat (ds : List Nat) : Nat := ds.foldl (fun a c => a * 10 + (c - 48)) 0

/-- Integer part of a JSON number: a single zero, or a nonzero digit
followed by digits. -/
def parseIntPart : List Nat → Option (List Nat × List Nat)
  | [] => none
  | c :: rest =>
    if c = 48 then some ([48], rest)
    else if 49 ≤ c ∧ c ≤ 57 then
      let p := rest.span isDigit
      some (c :: p.1, p.2)
    else none

/-- Optional fraction part: a dot followed by at least one digit, otherwise
nothing is consumed. -/
def parseFracPart : List Nat → List Nat × List Nat
  | [] => ([], [])
  | c :: rest =>
    if c = 46 then
      let p := rest.span isDigit
      if p.1.isEmpty then ([], c :: rest) else (c :: p.1, p.2)
    else ([], c :: rest)

/-- Optional exponent part: e or E, an optional sign, and at least one
digit, otherwise nothing is consumed. -/
def parseExpPart : List Nat → List Nat × List Nat
  | [] => ([], [])
  | c :: rest =>
    if c = 101 ∨ c = 69 then
      let sp : List Nat × List Nat :=
        match rest with
        | s :: r => if s = 43 ∨ s = 45 then ([s], r) else ([], s :: r)
        | [] => ([], [])
      let p := sp.2.span isDigit
      if p.1.isEmpty then ([], c :: rest) else (c :: (sp.1 ++ p.1), p.2)
    else ([], c :: rest)

/-- Parse a JSON number.  A plain integer lexeme becomes an int value; a
lexeme with a fraction or exponent becomes a float, kept as its lexeme. -/
def parseNumber (l : List Nat) : Option (JVal × List Nat) :=
  let sp : Bool × List Nat :=
    match l with
    | 45 :: r => (true, r)
    | _ => (false, l)
  match parseIntPart sp.2 with
  | none => none
  | some (ip, r1) =>
    let fp := parseFracPart r1
    let ep := parseExpPart fp.2
    if fp.1.isEmpty ∧ ep.1.isEmpty then
      let n : Int := Int.ofNat (digitsToNat ip)
      some (JVal.int (if sp.1 then -n else n), ep.2)
    else
      some (JVal.float ((if sp.1 then [45] else []) ++ ip ++ fp.1 ++ ep.1), ep.2)

mutual

/-- Parse one JSON value at the head of the input (whitespace already
skipped): strings, arrays, objects, true, false, null, the scanner
constants NaN, Infinity and -Infinity, and numbers.  Fuel bounds nesting;
the top-level caller provides more fuel than any input can consume. -/
def parseValue : Nat → List Nat → Option (JVal × List Nat)
  | 0, _ => none
  | _ + 1, [] => none
  | fuel + 1, c :: rest =>
    if c = 34 then
      match parseStrBody (rest.length + 1) rest with
      | none => none
      | some (s, r) => some (JVal.str s, r)
    else if c = 91 then
      match parseArrItems fuel (skipWs rest) true with
      | none => none
      | some (vs, r) => some (JVal.arr vs, r)
    else if c = 123 then
      match parseObjItems fuel (skipWs rest) true with
      | none => none
      | some (es, r) => some (JVal.obj es, r)
    else if c = 116 then
      match rest with
      | 114 :: 117 :: 101 :: r => some (JVal.bool true, r)
      | _ => none
    else if c = 102 then
      match rest with
      | 97 :: 108 :: 115 :: 101 :: r => some (JVal.bool false, r)
      | _ => none
    else if c = 110 then
      match rest with
      | 117 :: 108 :: 108 :: r => some (JVal.null, r)
      | _ => none
    else if c = 78 then
      match rest with
      | 97 :: 78 :: r => some (JVal.nan, r)
      | _ => none
    else if c = 73 then
      match rest with
      | 110 :: 102 :: 105 :: 110 :: 105 :: 116 :: 121 :: r => some (JVal.inf false, r)
      | _ => none
    else if c = 45 then
      match rest with
      | 73 :: 110 :: 102 :: 105 :: 110 :: 105 :: 116 :: 121 :: r => some (JVal.inf true, r)
      | _ => parseNumber (c :: rest)
    else if isDigit c then parseNumber (c :: rest)
    else none

/-- Parse array elements after the opening bracket (whitespace skipped);
first is true until the first element has been read. -/
def parseArrItems : Nat → List Nat → Bool → Option (List JVal × List Nat)
  | 0, _, _ => none
  | fuel + 1, l, first =>
    match l with
    | 93 :: r => if first then some ([], r) else none
    | _ =>
      match parseValue fuel l with
      | none => none
      | some (v, r1) =>
        match skipWs r1 with
        | 44 :: r2 =>
          match parseArrItems fuel (skipWs r2) false with
          | none => none
          | some (vs, r3) => some (v :: vs, r3)
        | 93 :: r2 => some ([v], r2)
        | _ => none

/-- Parse object members after the opening brace (whitespace skipped); keys
must be strings. -/
def parseObjItems : Nat → List Nat → Bool → Option (List (List Nat × JVal) × List Nat)
  | 0, _, _ => none
  | fuel + 1, l, first =>
    match l with
    | 125 :: r => if first then some ([], r) else none
    | 34 :: r =>
      match parseStrBody (r.length + 1) r with
      | none => none
      | some (key, r1) =>
        match skipWs r1 with
        | 58 :: r2 =>
          match parseValue fuel (skipWs r2) with
          | none => none
          | some (v, r3) =>
            match skipWs r3 with
            | 44 :: r4 =>
              match parseObjItems fuel (skipWs r4) false with
              | none => none
              | some (es, r5) => some ((key, v) :: es, r5)
            | 125 :: r4 => some ([(key, v)], r4)
            | _ => none
        | _ => none
    | _ => none

end

/-- json.loads: skip leading whitespace, parse one value, and require that
only whitespace follows.  The fuel bound exceeds what any input can use
(every fuel step of nesting or element chaining consumes input). -/
def jsonLoads (l : List Nat) : Option JVal :=
  let l1 := skipWs l
  match parseValue (4 * l1.length + 4) l1 with
  | none => none
  | some (v, r) => if skipWs r = [] then some v else none

/-- The value the set command stores for a raw argument string: the
try/except at lines 183 to 187 of pritunl/__main__.py.  json.loads of the
argument if it parses, otherwise json.loads of the JSON string encoding of
the argument (the fallback double decode). -/
def parseSetValue (v : List Nat) : Option JVal :=
  match jsonLoads v with
  | some j => some j
  | none => jsonLoads (encodeJsonStr v)

/-! ## Settings store

Modelled from the spec: the settings module itself is not in the reviewed
sources, only its callers in pritunl/__main__.py are.  Per spec section 2
and 3 the Config Store holds one group per name of a fixed enumerated set
(application, user, bootstrap/connection, per-host local); the distinguished
host group is reached through the local group (settings.local.host in the
callers), not as an attribute of the store itself, which is why the get and
set branches special-case the group name host before falling back to
attribute lookup on the store.  A field read falls back from the set values
to the per-field default; unset reverts the field to its default. -/

/-- One settings group: its registered fields with defaults, and the values
assigned over them. -/
structure Group where
  defaults : List (String × JVal)
  overrides : List (String × JVal)

/-- Attribute read of a field: the assigned value if any, else the default;
none models AttributeError (NotFoundError) for an unknown field. -/
def Group.get (g : Group) (k : String) : Option JVal :=
  match g.overrides.lookup k with
  | some v => some v
  | none => g.defaults.lookup k

/-- Attribute assignment of a field value (setattr). -/
def Group.set (g : Group) (k : String) (v : JVal) : Group :=
  { g with overrides := (k, v) :: g.overrides }

/-- Revert a field to its default (the unset operation of a group). -/
def Group.unset (g : Group) (k : String) : Group :=
  { g with overrides := g.overrides.filter (fun p => p.1 != k) }

/-- The group.fields iteration of the get command: every registered field
with its current value. -/
def Group.allFields (g : Group) : List (String × JVal) :=
  g.defaults.map (fun p =>
    (p.1, match g.overrides.lookup p.1 with | some v => v | none => p.2))

/-- The process-wide settings store plus the host group reached through
settings.local.host. -/
structure SettingsState where
  app : Group
  user : Group
  conf : Group
  localGrp : Group
  host : Group

/-- Attribute lookup of a store group (getattr(settings, group_str)): the
store has no attribute named host, the host group lives behind the local
group. -/
def getGroup (st : SettingsState) (n : String) : Option Group :=
  if n = "app" then some st.app
  else if n = "user" then some st.user
  else if n = "conf" then some st.conf
  else if n = "local" then some st.localGrp
  else none

/-- Replace a store group by name; unknown names leave the store unchanged
(never reached after a successful lookup). -/
def setGroup (st : SettingsState) (n : String) (g : Group) : SettingsState :=
  if n = "app" then { st with app := g }
  else if n = "user" then { st with user := g }
  else if n = "conf" then { st with conf := g }
  else if n = "local" then { st with localGrp := g }
  else st

/-- Errors surfaced by the command branches. -/
inductive Err where
  | valueErrorSplit : Err
  | notFoundGroup : Err
  | notFoundField : Err
  | jsonDecodeError : Err
  | collectionExists : Err
  | unboundLocal : Err
  | noneTypeStrip : Err
deriving DecidableEq

/-- Observable side effects of a command, in program order: a group commit,
an Event append, a Messenger publish. -/
inductive Effect where
  | commitHost : Effect
  | commitAll : Effect
  | eventHostsUpdated : Effect
  | publish (channel : String) (payload : String) : Effect
deriving DecidableEq

/-! ## The get, set and unset command branches -/

/-- The get command branch (lines 133 to 163): split the address on dots,
take the first part as the group and the second, if present, as the field;
the host group is special-cased, other groups are store attributes; an
empty or missing field part lists every field of the group. -/
def getCmd (st : SettingsState) (addr : String) : Except Err (List (String × JVal)) :=
  let sp := pySplitDot addr
  let g := sp.headD ""
  let key : Option String :=
    match (sp.drop 1).head? with
    | some k => if k = "" then none else some k
    | none => none
  match (if g = "host" then some st.host else getGroup st g) with
  | none => .error .notFoundGroup
  | some grp =>
    match key with
    | some k =>
      match grp.get k with
      | none => .error .notFoundField
      | some v => .ok [(k, v)]
    | none => .ok grp.allFields

/-- The set command branch (lines 164 to 206): unpack the address into
exactly two parts (ValueError otherwise), resolve the group with the host
special case, parse the value with the JSON fallback, assign, then commit.
A host-group set commits the host group and then creates one HOSTS_UPDATED
Event and one Messenger publish on channel hosts with payload updated; any
other group is committed through the store with no Event and no publish
(spec section 4.1). -/
def setCmd (st : SettingsState) (addr valStr : String) :
    Except Err (SettingsState × List Effect) :=
  match pySplitDot addr with
  | [g, k] =>
    if g = "host" then
      match parseSetValue (codes valStr) with
      | none => .error .jsonDecodeError
      | some v =>
        .ok ({ st with host := st.host.set k v },
          [.commitHost, .eventHostsUpdated, .publish "hosts" "updated"])
    else
      match getGroup st g with
      | none => .error .notFoundGroup
      | some grp =>
        match parseSetValue (codes valStr) with
        | none => .error .jsonDecodeError
        | some v => .ok (setGroup st g (grp.set k v), [.commitAll])
  | _ => .error .valueErrorSplit

/-- The unset command branch (lines 207 to 231): unpack the address into
exactly two parts (ValueError otherwise), look the group up as a store
attribute with no host special case, revert the field and commit through
the store.  The confirmation print after the commit is not modelled. -/
def unsetCmd (st : SettingsState) (addr : String) :
    Except Err (SettingsState × List Effect) :=
  match pySplitDot addr with
  | [g, k] =>
    match getGroup st g with
    | none => .error .notFoundGroup
    | some grp => .ok (setGroup st g (grp.unset k), [.commitAll])
  | _ => .error .valueErrorSplit

/-- The override-device-key branch (lines 232 to 245): store the invocation
time int(time.time()) in the device_key_override field of the user group
and commit. -/
def overrideDeviceKey (now : Int) (st : SettingsState) : SettingsState × List Effect :=
  ({ st with user := st.user.set "device_key_override" (JVal.int now) }, [.commitAll])

/-- The require-device-key branch (lines 246 to 258): store None in the
device_key_override field of the user group and commit. -/
def requireDeviceKey (st : SettingsState) : SettingsState × List Effect :=
  ({ st with user := st.user.set "device_key_override" JVal.null }, [.commitAll])

/-! ## Mongo collection state -/

/-- What create_collection records about a collection: whether it is
capped, its byte size bound and its document count bound. -/
structure CollectionSpec where
  capped : Bool
  size : Int
  maxDocs : Option Int
deriving DecidableEq

/-- The database: collections by full (prefixed) name. -/
def DbState := List (String × CollectionSpec)

/-- Drop a collection; dropping an absent collection is a no-op. -/
def dropColl (db : DbState) (n : String) : DbState := db.filter (fun p => p.1 != n)

/-- create_collection: fails if a collection of that name exists. -/
def createColl (db : DbState) (n : String) (spec : CollectionSpec) : Option DbState :=
  match db.lookup n with
  | some _ => none
  | none => some ((n, spec) :: db)

/-- The clear-logs branch (lines 513 to 536): drop both log collections,
then recreate each capped, with size log_limit * 1024 and count log_limit
for logs, and size log_entry_limit * 512 and count log_entry_limit for
log_entries, both limits read from the app settings group.  The name part
before each collection name is the configured collection name lead-in
(mongodb_collection prefix of the conf group, or empty), passed here as
pfx. -/
def clearLogs (st : SettingsState) (pfx : String) (db : DbState) : Except Err DbState :=
  let db1 := dropColl db (pfx ++ "logs")
  let db2 := dropColl db1 (pfx ++ "log_entries")
  match st.app.get "log_limit" with
  | some (JVal.int n) =>
    match createColl db2 (pfx ++ "logs") ⟨true, n * 1024, some n⟩ with
    | none => .error .collectionExists
    | some db3 =>
      match st.app.get "log_entry_limit" with
      | some (JVal.int m) =>
        match createColl db3 (pfx ++ "log_entries") ⟨true, m * 512, some m⟩ with
        | none => .error .collectionExists
        | some db4 => .ok db4
      | _ => .error .notFoundField
  | _ => .error .notFoundField

/-! ## Auth limiter store -/

/-- An Auth Limiter Record, fields per spec section 3 (the record layout is
not in the reviewed sources; only the bulk clear touches it). -/
structure AuthRecord where
  key : String
  attempt_count : Nat
  first_attempt_time : Nat
  last_attempt_time : Nat

/-- The clear-auth-limit branch (lines 500 to 512): delete_many with the
all-matching empty filter document on the auth_limiter collection, keeping
exactly the records the filter does not match, which is none of them. -/
def clearAuthLimit (recs : List AuthRecord) : List AuthRecord :=
  recs.filter (fun _ => false)

/-! ## The clear-message-cache branch and Python local name resolution -/

/-- A string expression of the branch body: a literal, a read of a
function-local name, or a concatenation. -/
inductive MExpr where
  | lit (s : String) : MExpr
  | localVar (x : String) : MExpr
  | concat (a b : MExpr) : MExpr

/-- Evaluate a string expression; reading a local name with no binding is
the UnboundLocalError of Python. -/
def evalM (env : List (String × String)) : MExpr → Option String
  | .lit s => some s
  | .localVar x => env.lookup x
  | .concat a b =>
    match evalM env a, evalM env b with
    | some u, some v => some (u ++ v)
    | _, _ => none

/-- A statement of the branch body: drop a collection (by resolved name) or
create a capped collection under a computed name. -/
inductive MStmt where
  | mdrop (coll : String) : MStmt
  | mcreate (nameExpr : MExpr) (spec : CollectionSpec) : MStmt

/-- Run the statements in order, stopping at the first error and returning
the database state reached at that point. -/
def runStmts (env : List (String × String)) :
    List MStmt → DbState → Option Err × DbState
  | [], db => (none, db)
  | .mdrop c :: rest, db => runStmts env rest (dropColl db c)
  | .mcreate e spec :: rest, db =>
    match evalM env e with
    | none => (some .unboundLocal, db)
    | some n =>
      match createColl db n spec with
      | none => (some .collectionExists, db)
      | some db2 => runStmts env rest db2

/-- The clear-message-cache branch body (lines 341 to 357): drop the
messages collection, then recreate it capped with size 5000192 and count
1000 under a name computed from the function-local name at line 352.  That
local is assigned only on the clear-logs path (line 524), so on this path
the environment holds no binding for it.  pfx is the resolved collection
name lead-in the drop goes through. -/
def clearMessageCacheStmts (pfx : String) : List MStmt :=
  [ .mdrop (pfx ++ "messages"),
    .mcreate (.concat (.localVar "prefix") (.lit "messages")) ⟨true, 5000192, some 1000⟩ ]

/-! ## The set-host-id and logs branches -/

/-- The set-host-id branch (lines 292 to 308): the uuid file is opened for
writing, which truncates it, before the strip call on the argument runs;
with no argument the argument is None and strip raises AttributeError,
leaving the file truncated.  The pair is the error, if any, and the file
contents afterwards. -/
def setHostId (arg : Option String) (_uuidFilePrior : String) : Option Err × String :=
  match arg with
  | none => (some .noneTypeStrip, "")
  | some s => (none, s.trim)

/-- The logs branch (lines 475 to 499): with the archive option the
destination is the second positional argument if given, else the current
directory, and the line printed is the path the archive operation returns;
with the tail option the tailed lines are printed; otherwise the formatted
listing is printed.  The log view operations live in the logger module
(spec section 4.3) and are passed in as functions. -/
def logsCmd (archiveFlag tailFlag natural : Bool) (limit : Option Int)
    (unformatted : Bool) (args : List String)
    (archiveLogFn : String → Bool → Option Int → String)
    (tailLines : List String)
    (getLines : Bool → Option Int → Bool → String) : List String :=
  if archiveFlag then
    let path := if args.length > 1 then args.getD 1 "" else "./"
    ["Log archived to: " ++ archiveLogFn path natural limit]
  else if tailFlag then tailLines
  else [getLines natural limit (!unformatted)]

/-! ## A concrete store for witnesses and counterexamples -/

/-- A small concrete settings store: app limits at their defaults 50 and
60, a user group with the device key override field, and a host group whose
mongodb_uri field defaults to a placeholder. -/
def S0 : SettingsState :=
  { app := ⟨[("log_limit", JVal.int 50), ("log_entry_limit", JVal.int 60)], []⟩
    user := ⟨[("device_key_override", JVal.null)], []⟩
    conf := ⟨[("mongodb_uri", JVal.null)], []⟩
    localGrp := ⟨[("host_id", JVal.str (codes "h1"))], []⟩
    host := ⟨[("mongodb_uri", JVal.str (codes "mongodb://default"))], []⟩ }

/-- A small concrete database with both log collections present. -/
def DB0 : DbState :=
  [("logs", ⟨true, 51200, some 50⟩), ("log_entries", ⟨true, 30720, some 60⟩)]

/-- Whether a command result is the ValueError of the two-part address
unpacking. -/
def isSplitErr {α : Type} : Except Err α → Bool
  | .error .valueErrorSplit => true
  | _ => false

/-- The settings store after the host-group set of the spec scenario. -/
def demoHostState : SettingsState :=
  match setCmd S0 "host.mongodb_uri" "mongodb://a" with
  | .ok p => p.1
  | .error _ => S0

/-- The effects of that host-group set. -/
def demoHostEffs : List Effect :=
  [Effect.commitHost, Effect.eventHostsUpdated, Effect.publish "hosts" "updated"]

/-- The settings store after set app.log_limit 100 (the clear-logs
scenario). -/
def demoAppState : SettingsState :=
  match setCmd S0 "app.log_limit" "100" with
  | .ok p => p.1
  | .error _ => S0

/-- The settings store after set app.log_limit 7 (the unset roundtrip
scenario). -/
def demoAppState7 : SettingsState :=
  match setCmd S0 "app.log_limit" "7" with
  | .ok p => p.1
  | .error _ => S0

/-! ## Association list lemmas -/

theorem lookup_filter_ne {β : Type} (l : List (String × β)) (n : String) :
    (l.filter (fun p => p.1 != n)).lookup n = none := by
  induction l with
  | nil => rfl
  | cons p t ih =>
    by_cases h : p.1 = n
    · simp [List.filter_cons, h, ih]
    · have h2 : (n == p.1) = false := beq_eq_false_iff_ne.mpr (Ne.symm h)
      simp [List.filter_cons, h, List.lookup, h2, ih]

theorem lookup_filter_none {β : Type} (f : String × β → Bool) (l : List (String × β))
    (n : String) (h : l.lookup n = none) : (l.filter f).lookup n = none := by
  induction l with
  | nil => rfl
  | cons p t ih =>
    simp only [List.lookup] at h
    rcases hbe : n == p.1 with _ | _
    · rw [hbe] at h
      by_cases hf : f p
      · simp [List.filter_cons, hf, List.lookup, hbe, ih h]
      · simp [List.filter_cons, hf, ih h]
    · rw [hbe] at h
      cases h

theorem Group.get_set_self (g : Group) (k : String) (v : JVal) :
    (g.set k v).get k = some v := by
  simp [Group.get, Group.set, List.lookup]

theorem Group.get_unset_self (g : Group) (k : String) :
    (g.unset k).get k = g.defaults.lookup k := by
  simp [Group.get, Group.unset, lookup_filter_ne]

theorem getGroup_setGroup_self (st : SettingsState) (g : String) (gr gr2 : Group)
    (h : getGroup st g = some gr) :
    getGroup (setGroup st g gr2) g = some gr2 := by
  unfold getGroup setGroup at *
  split_ifs at h ⊢ <;> simp_all

theorem getGroup_host_none (st : SettingsState) : getGroup st "host" = none := by
  rfl

/-! ## C1 -/

/-- C1: for every successful set command, when the addressed group is the
host group the effect trace after the assignment is exactly one host-group
commit followed by exactly one HOSTS_UPDATED Event and exactly one
Messenger publish on channel hosts with payload updated; when the
addressed group is any other group, the trace is one store commit with no
Event and no publish. -/
theorem set_host_commit_emits_one_event_one_publish
    (st st' : SettingsState) (addr valStr : String) (effs : List Effect)
    (g k : String)
    (hsplit : pySplitDot addr = [g, k])
    (h : setCmd st addr valStr = Except.ok (st', effs)) :
    effs = if g = "host"
      then [Effect.commitHost, Effect.eventHostsUpdated, Effect.publish "hosts" "updated"]
      else [Effect.commitAll] := by
  unfold setCmd at h
  rw [hsplit] at h
  by_cases hg : g = "host"
  · simp only [if_pos hg] at h
    rw [if_pos hg]
    cases hp : parseSetValue (codes valStr) with
    | none => rw [hp] at h; cases h
    | some v =>
      rw [hp] at h
      simp only [Except.ok.injEq, Prod.mk.injEq] at h
      exact h.2.symm
  · simp only [if_neg hg] at h
    rw [if_neg hg]
    cases hgg : getGroup st g with
    | none => rw [hgg] at h; cases h
    | some grp =>
      rw [hgg] at h
      cases hp : parseSetValue (codes valStr) with
      | none => rw [hp] at h; cases h
      | some v =>
        rw [hp] at h
        simp only [Except.ok.injEq, Prod.mk.injEq] at h
        exact h.2.symm

/-- C1 witness: the host-group set on the concrete store produces exactly
the commit, Event, publish trace. -/
theorem set_host_commit_emits_one_event_one_publish_witness :
    demoHostEffs = if "host" = "host"
      then [Effect.commitHost, Effect.eventHostsUpdated, Effect.publish "hosts" "updated"]
      else [Effect.commitAll] :=
  set_host_commit_emits_one_event_one_publish S0 demoHostState "host.mongodb_uri"
    "mongodb://a" demoHostEffs "host" "mongodb_uri" (by rfl) (by rfl)

/-! ## C5 -/

/-- C5 counterexample: at invocation time 1000 the override-device-key
command stores 1000 itself in device_key_override, and 1000 is not the
claimed absolute expiry 1000 + 8 * 3600. -/
theorem override_device_key_stores_now_counterexample :
    (overrideDeviceKey 1000 S0).1.user.get "device_key_override" = some (JVal.int 1000)
    ∧ decide ((1000 : Int) = 1000 + 8 * 3600) = false := by
  exact ⟨rfl, rfl⟩

/-- C5 amended: override-device-key records the invocation timestamp
int(time.time()) itself in the device_key_override field of the user group
and commits (the 8-hour window is derived from that start time by the
external consumer); require-device-key sets the field to None and
commits. -/
theorem override_records_invocation_time_require_clears
    (now : Int) (st : SettingsState) :
    (overrideDeviceKey now st).1.user.get "device_key_override" = some (JVal.int now)
    ∧ (overrideDeviceKey now st).2 = [Effect.commitAll]
    ∧ (requireDeviceKey st).1.user.get "device_key_override" = some JVal.null
    ∧ (requireDeviceKey st).2 = [Effect.commitAll] := by
  refine ⟨?_, rfl, ?_, rfl⟩ <;>
    simp [overrideDeviceKey, requireDeviceKey, Group.get_set_self]

/-! ## C7 -/

/-- C7: the clear-auth-limit command deletes every Auth Limiter Record for
every prior state, so a count afterwards is zero; it is idempotent and a
no-op success on the empty store. -/
theorem clear_auth_limit_deletes_all (recs : List AuthRecord) :
    clearAuthLimit recs = []
    ∧ (clearAuthLimit recs).length = 0
    ∧ clearAuthLimit (clearAuthLimit recs) = clearAuthLimit recs
    ∧ clearAuthLimit ([] : List AuthRecord) = [] := by
  simp [clearAuthLimit]

/-! ## C8 -/

/-- C8: on every database state the clear-message-cache branch drops the
messages collection and then stops with an unbound-local error at the
recreate step, whose name expression reads a local that has no binding on
this path; the messages collection is left dropped and not recreated. -/
theorem clear_message_cache_always_fails (pfx : String) (db : DbState) :
    runStmts [] (clearMessageCacheStmts pfx) db
      = (some Err.unboundLocal, dropColl db (pfx ++ "messages"))
    ∧ (dropColl db (pfx ++ "messages")).lookup (pfx ++ "messages") = none := by
  refine ⟨?_, lookup_filter_ne db (pfx ++ "messages")⟩
  simp [clearMessageCacheStmts, runStmts, evalM, List.lookup]

/-! ## C9 -/

/-- C9: the set-host-id command with no argument fails with the attribute
error of stripping None, and for every prior uuid file content the file has
already been truncated to empty by the open for writing. -/
theorem set_host_id_truncates_then_fails (prior : String) :
    setHostId none prior = (some Err.noneTypeStrip, "") := by
  rfl

/-! ## C10 -/

/-- C10: the logs command with the archive option and no path argument
archives to the current directory and prints the path returned by the
archive operation. -/
theorem logs_archive_default_path
    (natural : Bool) (limit : Option Int) (unformatted : Bool)
    (args : List String)
    (archiveLogFn : String → Bool → Option Int → String)
    (tailLines : List String) (getLines : Bool → Option Int → Bool → String)
    (h : args.length ≤ 1) :
    logsCmd true false natural limit unformatted args archiveLogFn tailLines getLines
      = ["Log archived to: " ++ archiveLogFn "./" natural limit] := by
  have hn : ¬ (args.length > 1) := by omega
  simp [logsCmd, hn]

/-- C10 witness: a concrete archive invocation with no path argument. -/
theorem logs_archive_default_path_witness :
    logsCmd true false false none false ["logs"]
      (fun p _ _ => p ++ "pritunl.log.tar") [] (fun _ _ _ => "")
      = ["Log archived to: "
          ++ (fun (p : String) (_ : Bool) (_ : Option Int) => p ++ "pritunl.log.tar")
            "./" false none] :=
  logs_archive_default_path false none false ["logs"]
    (fun p _ _ => p ++ "pritunl.log.tar") [] (fun _ _ _ => "") (by decide)

/-! ## C2 -/

/-- C2 counterexample: the spec scenario on the host group fails.  After
set host.mongodb_uri mongodb://a succeeds, unset host.mongodb_uri stops
with the group lookup error (the unset branch resolves the group as a
store attribute with no host special case), and a get still returns the
set value, not the default. -/
theorem unset_host_scenario_counterexample :
    (do
      let p ← setCmd S0 "host.mongodb_uri" "mongodb://a"
      unsetCmd p.1 "host.mongodb_uri")
      = Except.error Err.notFoundGroup
    ∧ (do
      let p ← setCmd S0 "host.mongodb_uri" "mongodb://a"
      getCmd p.1 "host.mongodb_uri")
      = Except.ok [("mongodb_uri", JVal.str (codes "mongodb://a"))] := by
  exact ⟨rfl, rfl⟩

/-- C2 amended: for every group that is a store attribute (which the host
group is not), set followed by unset followed by get on the same address
returns the field default; on the host group address the unset command
fails with the group lookup error instead, because it resolves the group
through the store without the host special case of get and set. -/
theorem unset_reverts_store_groups
    (st st1 : SettingsState) (addr valStr : String) (g k : String)
    (gr : Group) (d : JVal) (effs : List Effect)
    (hsplit : pySplitDot addr = [g, k])
    (hk : (k == "") = false)
    (hg : getGroup st g = some gr)
    (hd : gr.defaults.lookup k = some d)
    (hset : setCmd st addr valStr = Except.ok (st1, effs)) :
    (unsetCmd st1 addr).toOption.bind (fun p => (getCmd p.1 addr).toOption)
      = some [(k, d)] := by
  have hgh : g ≠ "host" := by
    intro hh
    rw [hh, getGroup_host_none] at hg
    cases hg
  have hkne : k ≠ "" := beq_eq_false_iff_ne.mp hk
  unfold setCmd at hset
  rw [hsplit] at hset
  simp only [if_neg hgh] at hset
  rw [hg] at hset
  cases hp : parseSetValue (codes valStr) with
  | none => rw [hp] at hset; cases hset
  | some v =>
    rw [hp] at hset
    simp only [Except.ok.injEq, Prod.mk.injEq] at hset
    obtain ⟨hst1, heffs⟩ := hset
    have hg1 : getGroup st1 g = some (gr.set k v) := by
      rw [← hst1]
      exact getGroup_setGroup_self st g gr _ hg
    have hg2 : getGroup (setGroup st1 g ((gr.set k v).unset k)) g
        = some ((gr.set k v).unset k) :=
      getGroup_setGroup_self st1 g _ _ hg1
    simp only [unsetCmd, hsplit, hg1, Except.toOption, Option.bind]
    simp only [getCmd, hsplit, List.headD, List.drop, List.head?]
    rw [if_neg hkne, if_neg hgh, hg2]
    simp only [Group.get_unset_self, Group.set, hd]

/-- C2 witness for the amended claim: set app.log_limit 7, unset it, and
the get returns the default 50. -/
theorem unset_reverts_store_groups_witness :
    (unsetCmd demoAppState7 "app.log_limit").toOption.bind
        (fun p => (getCmd p.1 "app.log_limit").toOption)
      = some [("log_limit", JVal.int 50)] :=
  unset_reverts_store_groups S0 demoAppState7 "app.log_limit" "7" "app" "log_limit"
    S0.app (JVal.int 50) [Effect.commitAll] (by rfl) (by rfl) (by rfl) (by rfl) (by rfl)

/-! ## C3 -/

/-- C3 counterexample: a dotless address given to get does not fail at all,
it lists the whole group; and an address with an empty group part given to
set passes the split and fails only at the group lookup, not with the
claimed invalid-address error before any lookup. -/
theorem address_resolution_counterexample :
    getCmd S0 "app" = Except.ok [("log_limit", JVal.int 50), ("log_entry_limit", JVal.int 60)]
    ∧ setCmd S0 ".f" "1" = Except.error Err.notFoundGroup := by
  exact ⟨rfl, rfl⟩

/-- C3 amended: for set and unset the address unpacking fails with
ValueError exactly when the address does not split on dots into exactly two
components, with no check that the components are non-empty; the get
command never fails with that resolution error, since a dotless address
selects the whole group and extra components are ignored. -/
theorem split_error_iff (st : SettingsState) (addr valStr : String) :
    isSplitErr (setCmd st addr valStr) = ((pySplitDot addr).length != 2)
    ∧ isSplitErr (unsetCmd st addr) = ((pySplitDot addr).length != 2)
    ∧ isSplitErr (getCmd st addr) = false := by
  refine ⟨?_, ?_, ?_⟩
  · rcases hsp : pySplitDot addr with _ | ⟨a, _ | ⟨b, _ | ⟨c, t⟩⟩⟩
    · simp [setCmd, hsp, isSplitErr]
    · simp [setCmd, hsp, isSplitErr]
    · by_cases hg : a = "host"
      · simp only [setCmd, hsp, if_pos hg]
        cases hp : parseSetValue (codes valStr) <;> simp [hp, isSplitErr]
      · simp only [setCmd, hsp, if_neg hg]
        cases hgg : getGroup st a with
        | none => simp [hgg, isSplitErr]
        | some grp =>
          cases hp : parseSetValue (codes valStr) <;> simp [hgg, hp, isSplitErr]
    · have hr : ((a :: b :: c :: t).length != 2) = true := by
        simp only [List.length_cons, bne_iff_ne, ne_eq]
        omega
      rw [hr]
      simp [setCmd, hsp, isSplitErr]
  · rcases hsp : pySplitDot addr with _ | ⟨a, _ | ⟨b, _ | ⟨c, t⟩⟩⟩
    · simp [unsetCmd, hsp, isSplitErr]
    · simp [unsetCmd, hsp, isSplitErr]
    · cases hgg : getGroup st a <;> simp [unsetCmd, hsp, hgg, isSplitErr]
    · have hr : ((a :: b :: c :: t).length != 2) = true := by
        simp only [List.length_cons, bne_iff_ne, ne_eq]
        omega
      rw [hr]
      simp [unsetCmd, hsp, isSplitErr]
  · simp only [getCmd]
    split
    · rfl
    · split
      · split
        · rfl
        · rfl
      · rfl

/-! ## C6 -/

/-- C6: the clear-logs command drops and recreates both log collections as
capped collections whose document count bound is the currently configured
limit of the app group and whose byte size is derived from it (1024 bytes
per document for logs, 512 for log_entries). -/
theorem clear_logs_recreates_capped_with_limits
    (st : SettingsState) (pfx : String) (db : DbState) (n m : Int)
    (h1 : st.app.get "log_limit" = some (JVal.int n))
    (h2 : st.app.get "log_entry_limit" = some (JVal.int m)) :
    (clearLogs st pfx db).toOption.bind
        (fun db2 => db2.lookup (pfx ++ "logs"))
      = some ⟨true, n * 1024, some n⟩
    ∧ (clearLogs st pfx db).toOption.bind
        (fun db2 => db2.lookup (pfx ++ "log_entries"))
      = some ⟨true, m * 512, some m⟩ := by
  have hne : pfx ++ "logs" ≠ pfx ++ "log_entries" := by
    intro hcontra
    have h3 := congrArg String.data hcontra
    simp only [String.data_append] at h3
    have h4 := List.append_cancel_left h3
    exact absurd h4 (by decide)
  have hlkL : (dropColl (dropColl db (pfx ++ "logs")) (pfx ++ "log_entries")).lookup
      (pfx ++ "logs") = none :=
    lookup_filter_none _ _ _ (lookup_filter_ne db _)
  have hlkE : (dropColl (dropColl db (pfx ++ "logs")) (pfx ++ "log_entries")).lookup
      (pfx ++ "log_entries") = none :=
    lookup_filter_ne _ _
  have hbe1 : ((pfx ++ "log_entries") == (pfx ++ "logs")) = false :=
    beq_eq_false_iff_ne.mpr (Ne.symm hne)
  have hbe2 : ((pfx ++ "logs") == (pfx ++ "log_entries")) = false :=
    beq_eq_false_iff_ne.mpr hne
  simp only [clearLogs, h1, h2, createColl, hlkL]
  simp only [List.lookup, hbe1, beq_self_eq_true, hlkE]
  simp only [Except.toOption, Option.bind, List.lookup, beq_self_eq_true, hbe1, hbe2]
  exact ⟨trivial, trivial⟩

/-- C6 witness for the spec scenario: after set app.log_limit 100, the
recreated logs collection is capped at 100 documents (and log_entries stays
at its configured limit 60). -/
theorem clear_logs_recreates_witness :
    (clearLogs demoAppState "" DB0).toOption.bind
        (fun db2 => db2.lookup ("" ++ "logs"))
      = some ⟨true, 100 * 1024, some 100⟩
    ∧ (clearLogs demoAppState "" DB0).toOption.bind
        (fun db2 => db2.lookup ("" ++ "log_entries"))
      = some ⟨true, 60 * 512, some 60⟩ :=
  clear_logs_recreates_capped_with_limits demoAppState "" DB0 100 60 (by rfl) (by rfl)

/-! ## C4: the JSON string encode/parse roundtrip -/


theorem hexDigitVal_hexDig (d : Nat) (hd : d < 16) : hexDigitVal (hexDig d) = some d := by
  interval_cases d <;> rfl

theorem hex4parse_hex4 (n : Nat) (hn : n < 65536) (r : List Nat) :
    hex4parse (hex4 n ++ r) = some (n, r) := by
  have h1 : n / 4096 < 16 := by omega
  have h2 : n / 256 % 16 < 16 := Nat.mod_lt _ (by omega)
  have h3 : n / 16 % 16 < 16 := Nat.mod_lt _ (by omega)
  have h4 : n % 16 < 16 := Nat.mod_lt _ (by omega)
  simp only [hex4, List.cons_append, List.nil_append, hex4parse,
    hexDigitVal_hexDig _ h1, hexDigitVal_hexDig _ h2,
    hexDigitVal_hexDig _ h3, hexDigitVal_hexDig _ h4]
  exact congrArg (fun z => some (z, r))
    (by omega : ((n / 4096 * 16 + n / 256 % 16) * 16 + n / 16 % 16) * 16 + n % 16 = n)

theorem escChar_literal (c : Nat) (h1 : 32 ≤ c) (h2 : c ≤ 126)
    (h3 : c ≠ 34) (h4 : c ≠ 92) : escChar c = [c] := by
  unfold escChar
  rw [if_neg h3, if_neg h4, if_neg (by omega : ¬c = 8), if_neg (by omega : ¬c = 9),
    if_neg (by omega : ¬c = 10), if_neg (by omega : ¬c = 12),
    if_neg (by omega : ¬c = 13), if_neg (by omega : ¬c < 32), if_pos h2]

theorem parseU_surrogate (l r3 r : List Nat) (u1 u2 : Nat)
    (h1 : hex4parse l = some (u1, 92 :: 117 :: r3))
    (hs1 : 55296 ≤ u1 ∧ u1 ≤ 56319)
    (h2 : hex4parse r3 = some (u2, r))
    (hs2 : 56320 ≤ u2 ∧ u2 ≤ 57343) :
    parseU l = some (65536 + (u1 - 55296) * 1024 + (u2 - 56320), r) := by
  simp only [parseU, h1]
  rw [if_pos hs1]
  simp only [h2]
  rw [if_pos hs2]

theorem escChar_escape (c : Nat) (hv : validScalar c)
    (he : c = 34 ∨ c = 92 ∨ c < 32 ∨ 126 < c) :
    ∃ tl, escChar c = 92 :: tl ∧ 1 ≤ tl.length
      ∧ ∀ r, parseEscape (tl ++ r) = some (c, r) := by
  obtain ⟨hup, hsur⟩ := hv
  by_cases h34 : c = 34
  · subst h34
    exact ⟨[34], rfl, by decide, fun r => rfl⟩
  by_cases h92 : c = 92
  · subst h92
    exact ⟨[92], rfl, by decide, fun r => rfl⟩
  by_cases h8 : c = 8
  · subst h8
    exact ⟨[98], rfl, by decide, fun r => rfl⟩
  by_cases h9 : c = 9
  · subst h9
    exact ⟨[116], rfl, by decide, fun r => rfl⟩
  by_cases h10 : c = 10
  · subst h10
    exact ⟨[110], rfl, by decide, fun r => rfl⟩
  by_cases h12 : c = 12
  · subst h12
    exact ⟨[102], rfl, by decide, fun r => rfl⟩
  by_cases h13 : c = 13
  · subst h13
    exact ⟨[114], rfl, by decide, fun r => rfl⟩
  by_cases hlow : c < 32
  · refine ⟨117 :: hex4 c, ?_, by simp [hex4], fun r => ?_⟩
    · unfold escChar
      rw [if_neg h34, if_neg h92, if_neg h8, if_neg h9, if_neg h10, if_neg h12,
        if_neg h13, if_pos hlow]
    · have hsh : (117 :: hex4 c) ++ r = 117 :: (hex4 c ++ r) := rfl
      rw [hsh]
      simp only [parseEscape]
      simp only [parseU, hex4parse_hex4 c (by omega) r]
      rw [if_neg (by omega : ¬(55296 ≤ c ∧ c ≤ 56319))]
      rw [if_neg (by decide : ¬(117 : Nat) = 34), if_neg (by decide : ¬(117 : Nat) = 92),
        if_neg (by decide : ¬(117 : Nat) = 47), if_neg (by decide : ¬(117 : Nat) = 98),
        if_neg (by decide : ¬(117 : Nat) = 102), if_neg (by decide : ¬(117 : Nat) = 110),
        if_neg (by decide : ¬(117 : Nat) = 114), if_neg (by decide : ¬(117 : Nat) = 116)]
      rw [if_pos trivial]
  by_cases hbmp : c ≤ 65535
  · have h126 : 126 < c := by omega
    refine ⟨117 :: hex4 c, ?_, by simp [hex4], fun r => ?_⟩
    · unfold escChar
      rw [if_neg h34, if_neg h92, if_neg h8, if_neg h9, if_neg h10, if_neg h12,
        if_neg h13, if_neg hlow, if_neg (by omega : ¬c ≤ 126), if_pos hbmp]
    · have hsh : (117 :: hex4 c) ++ r = 117 :: (hex4 c ++ r) := rfl
      rw [hsh]
      simp only [parseEscape]
      simp only [parseU, hex4parse_hex4 c (by omega) r]
      rw [if_neg (by omega : ¬(55296 ≤ c ∧ c ≤ 56319))]
      rw [if_neg (by decide : ¬(117 : Nat) = 34), if_neg (by decide : ¬(117 : Nat) = 92),
        if_neg (by decide : ¬(117 : Nat) = 47), if_neg (by decide : ¬(117 : Nat) = 98),
        if_neg (by decide : ¬(117 : Nat) = 102), if_neg (by decide : ¬(117 : Nat) = 110),
        if_neg (by decide : ¬(117 : Nat) = 114), if_neg (by decide : ¬(117 : Nat) = 116)]
      rw [if_pos trivial]
  · have hhi : 55296 + (c - 65536) / 1024 < 65536 := by omega
    have hlo : 56320 + (c - 65536) % 1024 < 65536 := by
      have := Nat.mod_lt (c - 65536) (by omega : 0 < 1024)
      omega
    refine ⟨117 :: (hex4 (55296 + (c - 65536) / 1024)
        ++ (92 :: 117 :: hex4 (56320 + (c - 65536) % 1024))), ?_, by simp, fun r => ?_⟩
    · unfold escChar
      rw [if_neg h34, if_neg h92, if_neg h8, if_neg h9, if_neg h10, if_neg h12,
        if_neg h13, if_neg hlow, if_neg (by omega : ¬c ≤ 126),
        if_neg (by omega : ¬c ≤ 65535)]
      simp [List.cons_append]
    · have hsh : (117 :: (hex4 (55296 + (c - 65536) / 1024)
          ++ (92 :: 117 :: hex4 (56320 + (c - 65536) % 1024)))) ++ r
          = 117 :: (hex4 (55296 + (c - 65536) / 1024)
            ++ (92 :: 117 :: (hex4 (56320 + (c - 65536) % 1024) ++ r))) := by
        simp [List.cons_append, List.append_assoc]
      rw [hsh]
      simp only [parseEscape]
      rw [if_neg (by decide : ¬(117 : Nat) = 34), if_neg (by decide : ¬(117 : Nat) = 92),
        if_neg (by decide : ¬(117 : Nat) = 47), if_neg (by decide : ¬(117 : Nat) = 98),
        if_neg (by decide : ¬(117 : Nat) = 102), if_neg (by decide : ¬(117 : Nat) = 110),
        if_neg (by decide : ¬(117 : Nat) = 114), if_neg (by decide : ¬(117 : Nat) = 116)]
      rw [if_pos trivial]
      rw [parseU_surrogate
        (hex4 (55296 + (c - 65536) / 1024)
          ++ (92 :: 117 :: (hex4 (56320 + (c - 65536) % 1024) ++ r)))
        (hex4 (56320 + (c - 65536) % 1024) ++ r) r
        (55296 + (c - 65536) / 1024) (56320 + (c - 65536) % 1024)
        (hex4parse_hex4 _ hhi _) (by omega) (hex4parse_hex4 _ hlo r) (by omega)]
      exact congrArg (fun z => some (z, r)) (by omega :
        65536 + (55296 + (c - 65536) / 1024 - 55296) * 1024
          + (56320 + (c - 65536) % 1024 - 56320) = c)

theorem parseStrBody_escapeStr (s : List Nat) :
    ∀ (l : List Nat) (fuel : Nat), (∀ c ∈ s, validScalar c) →
      (escapeStr s).length < fuel →
      parseStrBody fuel (escapeStr s ++ (34 :: l)) = some (s, l) := by
  induction s with
  | nil =>
    intro l fuel _ hf
    rcases fuel with _ | f
    · omega
    · simp [escapeStr, parseStrBody]
  | cons c cs ih =>
    intro l fuel h hf
    have hvc : validScalar c := h c (by simp)
    have hcs : ∀ x ∈ cs, validScalar x := fun x hx => h x (by simp [hx])
    by_cases hlit : 32 ≤ c ∧ c ≤ 126 ∧ c ≠ 34 ∧ c ≠ 92
    · obtain ⟨h1, h2, h3, h4⟩ := hlit
      have hec := escChar_literal c h1 h2 h3 h4
      rw [escapeStr, hec] at hf ⊢
      simp only [List.length_append, List.length_cons, List.length_nil] at hf
      rcases fuel with _ | f
      · omega
      · simp only [List.append_eq, List.singleton_append, List.cons_append,
          List.nil_append, parseStrBody]
        rw [if_neg h3, if_neg h4, if_neg (by omega : ¬c < 32)]
        rw [ih l f hcs (by omega)]
    · have he : c = 34 ∨ c = 92 ∨ c < 32 ∨ 126 < c := by omega
      obtain ⟨tl, htl, hlen, hpe⟩ := escChar_escape c hvc he
      rw [escapeStr, htl] at hf ⊢
      simp only [List.length_append, List.length_cons] at hf
      rcases fuel with _ | f
      · omega
      · simp only [List.append_eq, List.cons_append, List.append_assoc, parseStrBody,
          if_true]
        rw [if_neg (by decide : ¬(92 : Nat) = 34)]
        simp only [hpe]
        simp only [ih l f hcs (by omega)]

/-- The fallback roundtrip: parsing the JSON string encoding of any scalar
string yields that string. -/
theorem jsonLoads_encode (s : List Nat) (h : ∀ c ∈ s, validScalar c) :
    jsonLoads (encodeJsonStr s) = some (JVal.str s) := by
  simp only [jsonLoads, encodeJsonStr]
  have hws : skipWs (34 :: (escapeStr s ++ [34])) = 34 :: (escapeStr s ++ [34]) := by
    simp [skipWs]
  rw [hws]
  have hfe : 4 * (34 :: (escapeStr s ++ [34])).length + 4
      = (4 * (34 :: (escapeStr s ++ [34])).length + 3) + 1 := rfl
  rw [hfe]
  simp only [parseValue, if_true]
  have hps := parseStrBody_escapeStr s [] ((escapeStr s ++ [34]).length + 1) h
    (by simp only [List.length_append, List.length_cons, List.length_nil]; omega)
  rw [hps]
  simp [skipWs]

/-- C4: the value parsing of the set command.  A raw argument that does not
parse as JSON is stored as exactly the literal input string, via the
fallback that JSON-encodes the argument as a quoted string and parses the
result back (proved for every argument made of Unicode scalar values, which
every decoded command line string is); an argument that does parse as JSON
stores the parsed value, so the input true stores the boolean true. -/
theorem set_value_literal_fallback :
    (∀ v : List Nat, (∀ c ∈ v, validScalar c) → jsonLoads v = none →
        parseSetValue v = some (JVal.str v))
    ∧ (∀ (v : List Nat) (j : JVal), jsonLoads v = some j → parseSetValue v = some j)
    ∧ parseSetValue (codes "true") = some (JVal.bool true) := by
  refine ⟨?_, ?_, rfl⟩
  · intro v hv hnone
    unfold parseSetValue
    rw [hnone]
    exact jsonLoads_encode v hv
  · intro v j hj
    unfold parseSetValue
    rw [hj]

/-- C4 witness: the string mongodb://a is not JSON and is stored literally. -/
theorem set_value_literal_fallback_witness :
    parseSetValue (codes "mongodb://a") = some (JVal.str (codes "mongodb://a")) :=
  set_value_literal_fallback.1 (codes "mongodb://a") (by decide) (by rfl)


end Pritunl
